import Mathlib

/-!
Shallow embedding of the p2cord voice-session core
(`src-tauri/src/services/media/p2d/{mod,audio,session}.rs`).

Audio samples are modelled as rationals (the Rust code uses `f32`; every
comparison the claims depend on is order-theoretic and exact at the claimed
inputs).  The capture callback, the VAD + DTX gate, the jitter-buffered
playback callback and the signaling-loop state machine are translated
directly from the source; logging (`println!`) and packet counters that only
gate log lines are omitted, as are the actual Opus encoder/decoder payloads
(a sent packet is modelled by the frame it encodes).
-/

namespace P2d

/-! ### VAD + DTX gate (`audio.rs`, `start_audio_capture`) -/

/-- Sum of squared samples, the numerator of `calculate_rms` in `audio.rs`
(`data.iter().map(|&x| x * x).sum()`). -/
def sumSq (samples : List ℚ) : ℚ :=
  (samples.map (fun x => x * x)).sum

/-- The square of `calculate_rms` (`audio.rs` lines 90-93):
`rms = sqrt(sum_sq / len)`, so `rms^2 = sum_sq / len`.  Working with the
square avoids an irrational intermediate; the comparison against the
threshold is recovered through monotonicity of `Real.sqrt` (see
`frameActive_iff_sqrt` inside the C3 theorem). -/
def calculate_rms_sq (samples : List ℚ) : ℚ :=
  sumSq samples / samples.length

/-- `VAD_THRESHOLD = 0.005` (`audio.rs` line 85). -/
def VAD_THRESHOLD : ℚ := 5 / 1000

/-- `VAD_HANGOVER = 10` frames (`audio.rs` line 86). -/
def VAD_HANGOVER : ℕ := 10

/-- `let is_active = rms > VAD_THRESHOLD` (`audio.rs` line 162), expressed on
squares: for nonnegative arguments `sqrt m > t ↔ m > t^2`. -/
def frameActive (frame : List ℚ) : Bool :=
  decide (VAD_THRESHOLD ^ 2 < calculate_rms_sq frame)

/-- Mutable VAD state captured by the input callback closure:
`vad_hangover_frames` and `was_talking` (`audio.rs` lines 84-87). -/
structure VadSt where
  hangover : ℕ
  wasTalking : Bool
  deriving DecidableEq

/-- One 20 ms frame through the VAD + DTX gate (`audio.rs` lines 160-205).
Returns the new VAD state, the packets handed to the outbound channel
(modelled by their source frames; empty under DTX), and the voice-activity
events emitted (to the frontend and the VAD channel) by this frame. -/
def vadFrame (s : VadSt) (frame : List ℚ) : VadSt × List (List ℚ) × List Bool :=
  let isActive := frameActive frame
  let hang :=
    if isActive then VAD_HANGOVER
    else if 0 < s.hangover then s.hangover - 1
    else s.hangover
  let isTalking := decide (0 < hang)
  let evs := if isTalking ≠ s.wasTalking then [isTalking] else []
  let pkts := if isTalking then [frame] else []
  (⟨hang, isTalking⟩, pkts, evs)

/-- `FRAME_SIZE_PER_CHANNEL * 2` interleaved stereo samples per 20 ms frame
(`audio.rs` line 77). -/
def FRAME_LEN : ℕ := 1920

/-- The `while buffer.len() >= FRAME_SIZE_PER_CHANNEL * 2` loop of the input
callback (`audio.rs` lines 156-209): slice a frame, run the VAD + DTX gate,
drain the processed samples.  Returns the final VAD state, the residual
buffer, all packets sent and all events emitted, in order. -/
def processFrames (s : VadSt) (buffer : List ℚ) :
    VadSt × List ℚ × List (List ℚ) × List Bool :=
  if h : FRAME_LEN ≤ buffer.length then
    let frame := buffer.take FRAME_LEN
    let r := vadFrame s frame
    let rest := processFrames r.1 (buffer.drop FRAME_LEN)
    (rest.1, rest.2.1, r.2.1 ++ rest.2.2.1, r.2.2 ++ rest.2.2.2)
  else
    (s, buffer, [], [])
  termination_by buffer.length
  decreasing_by
    simp only [List.length_drop]
    have : 0 < FRAME_LEN := by decide
    omega

/-- Mono→stereo up-mix by sample duplication (`audio.rs` lines 137-142). -/
def monoToStereo : List ℚ → List ℚ
  | [] => []
  | x :: xs => x :: x :: monoToStereo xs

/-- Down-mix of a >2-channel stream: `data.chunks(channels)` keeping the
first two samples of every chunk of length ≥ 2 (`audio.rs` lines 145-153).
`channels = 0` cannot reach this branch (Rust would panic in `chunks(0)`);
it is mapped to the empty list to keep the function total. -/
def chunkMix (channels : ℕ) (data : List ℚ) : List ℚ :=
  if h : channels = 0 ∨ data = [] then []
  else
    let chunk := data.take channels
    (if 2 ≤ chunk.length then [chunk.headD 0, chunk.tail.headD 0] else [])
      ++ chunkMix channels (data.drop channels)
  termination_by data.length
  decreasing_by
    push_neg at h
    obtain ⟨hc, hd⟩ := h
    have h1 : 0 < data.length := List.length_pos.mpr hd
    simp only [List.length_drop]
    omega

/-- Channel adaptation of the incoming device batch (`audio.rs` lines 136-153). -/
def mixToStereo (channels : ℕ) (data : List ℚ) : List ℚ :=
  if channels = 1 then monoToStereo data
  else if channels = 2 then data
  else chunkMix channels data

/-- Mutable state of the input-callback closure: the accumulation `buffer`
plus the VAD state (`audio.rs` lines 80-87). -/
structure CapSt where
  buffer : List ℚ
  hangover : ℕ
  wasTalking : Bool
  deriving DecidableEq

/-- One invocation of the capture callback (`audio.rs` lines 97-210).
Inputs: the session `running` flag, the `is_muted` flag, the device channel
count and the incoming sample batch.  Outputs: new state, packets pushed to
the outbound channel, voice-activity events emitted (the code emits each
event to the frontend and to the VAD channel together).  The `packet_count`
variable only gates log lines and is omitted. -/
def captureCallback (running muted : Bool) (channels : ℕ) (data : List ℚ)
    (s : CapSt) : CapSt × List (List ℚ) × List Bool :=
  if !running then (s, [], [])
  else if muted then
    (⟨[], s.hangover, false⟩, [], if s.wasTalking then [false] else [])
  else
    let buf := s.buffer ++ mixToStereo channels data
    let r := processFrames ⟨s.hangover, s.wasTalking⟩ buf
    (⟨r.2.1, r.1.hangover, r.1.wasTalking⟩, r.2.2.1, r.2.2.2)

/-! ### Jitter buffer + resampler (`audio.rs`, `start_audio_playback`) -/

/-- `INITIAL_BUFFER_TARGET = 3840` samples, ~80 ms (`audio.rs` line 257). -/
def INITIAL_BUFFER_TARGET : ℕ := 3840

/-- The `while fractional_pos >= 1.0 { buffer.pop_front(); fractional_pos -= 1.0 }`
loop (`audio.rs` lines 327-330).  `pop_front` on an empty deque is a no-op,
matching `List.tail []  = []`. -/
def drainLoop (q : List ℚ) (fp : ℚ) : List ℚ × ℚ :=
  if h : (1 : ℚ) ≤ fp then drainLoop q.tail (fp - 1) else (q, fp)
  termination_by (⌊fp⌋).toNat
  decreasing_by
    have h1 : (1 : ℤ) ≤ ⌊fp⌋ := by
      rw [Int.le_floor]
      exact_mod_cast h
    have h2 : ⌊fp - 1⌋ = ⌊fp⌋ - 1 := Int.floor_sub_one fp
    omega

/-- One output sample of the playback fill loop (`audio.rs` lines 300-331):
read `queue[0]` (default `0.0`) and `queue[1]` (default the current value),
linearly interpolate at `fractional_pos`, overwrite with `0.0` when deafened,
advance `fractional_pos` by `ratio` and drain whole input samples.
Returns the new queue, the new `fractional_pos` and the written sample. -/
def sampleStep (deaf : Bool) (ratio : ℚ) (q : List ℚ) (fp : ℚ) :
    List ℚ × ℚ × ℚ :=
  let curr := q.headD 0
  let next := q.tail.headD curr
  let interpolated := curr + (next - curr) * fp
  let out := if deaf then 0 else interpolated
  let d := drainLoop q (fp + ratio)
  (d.1, d.2, out)

/-- The `for sample in output_data.iter_mut()` loop (`audio.rs` lines 300-331)
over a block of `n` output samples. -/
def fillLoop (deaf : Bool) (ratio : ℚ) : ℕ → List ℚ → ℚ → List ℚ × ℚ × List ℚ
  | 0, q, fp => (q, fp, [])
  | n + 1, q, fp =>
    let s := sampleStep deaf ratio q fp
    let rest := fillLoop deaf ratio n s.1 s.2.1
    (rest.1, rest.2.1, s.2.2 :: rest.2.2)

/-- Mutable state of the output-callback closure (`audio.rs` lines 244-258):
the FIFO `buffer`, `fractional_pos` and the `buffering` flag. -/
structure JitterSt where
  queue : List ℚ
  fractionalPos : ℚ
  buffering : Bool
  deriving DecidableEq

/-- One invocation of the output callback (`audio.rs` lines 264-332).
`incoming` is the concatenation of the packets fetched by the `try_recv`
loop at entry; `n` is the device-chosen block size; `ratio` is
`source_sample_rate / device_sample_rate`.  Returns the new state and the
block of samples written. -/
def outputCallback (deaf : Bool) (ratio : ℚ) (n : ℕ) (incoming : List ℚ)
    (s : JitterSt) : JitterSt × List ℚ :=
  let q0 := s.queue ++ incoming
  if s.buffering then
    if INITIAL_BUFFER_TARGET ≤ q0.length then
      let r := fillLoop deaf ratio n q0 s.fractionalPos
      (⟨r.1, r.2.1, false⟩, r.2.2)
    else
      (⟨q0, s.fractionalPos, true⟩, List.replicate n 0)
  else if q0.length = 0 then
    (⟨q0, s.fractionalPos, true⟩, List.replicate n 0)
  else
    let r := fillLoop deaf ratio n q0 s.fractionalPos
    (⟨r.1, r.2.1, false⟩, r.2.2)

/-! ### Signaling messages (`signaling.rs`) and the session controller
(`mod.rs`, `init`, signaling loop lines 137-345) -/

/-- `SignalingMessage` (`signaling.rs`); the `room_id` field is carried by
every variant on the wire but never read by the receive path, so only the
fields the controller inspects are modelled. -/
inductive SigMsg
  | join (clientId : String)
  | leave (clientId : String)
  | ping (clientId : String)
  | welcome (clientId : String)
  | offer (sdp : String)
  | answer (sdp : String)
  | iceCandidate (candidate : String)
  | voiceActivity (clientId : String) (isSpeaking : Bool)
  deriving DecidableEq

/-- SDP kinds passed to `set_remote_description` (`RTCSdpType`). -/
inductive SdpKind
  | offerKind
  | answerKind
  deriving DecidableEq

/-- Externally visible actions of the signaling loop, in program order:
frontend emits, WebSocket sends, and peer-session operations. -/
inductive Ev
  | emitPeerJoined (id : String)
  | emitPeerLeft (id : String)
  | emitRemoteVoice (id : String) (speaking : Bool)
  | sendWelcome (roomId clientId : String)
  | createOffer
  | sendOffer (sdp : String)
  | setRemote (kind : SdpKind) (sdp : String) (ok : Bool)
  | addIce (candidate : String)
  | createAnswer
  | sendAnswer (sdp : String)
  deriving DecidableEq

/-- Environment oracle for the fallible async session operations:
`create_offer` / `create_answer` return `Ok(sdp)` or `Err`, and
`set_remote_description` succeeds or fails per call. -/
structure SigEnv where
  offerSdp : Option String
  answerSdp : Option String
  srdOk : SdpKind → String → Bool

/-- An environment in which every session operation succeeds. -/
def allOkEnv : SigEnv :=
  ⟨some "offer-sdp", some "answer-sdp", fun _ _ => true⟩

/-- `peer_last_ping.insert(k, now)` on the association-list model of the
`HashMap` (replace the binding if the key is present, else append). -/
def pingInsert (k : String) (v : ℚ) : List (String × ℚ) → List (String × ℚ)
  | [] => [(k, v)]
  | (k', v') :: rest =>
    if k' = k then (k, v) :: rest else (k', v') :: pingInsert k v rest

/-- `peer_last_ping.remove(&k)`. -/
def pingRemove (k : String) : List (String × ℚ) → List (String × ℚ)
  | [] => []
  | (k', v') :: rest =>
    if k' = k then pingRemove k rest else (k', v') :: pingRemove k rest

/-- `peer_last_ping.get(&k)`. -/
def pingLookup (k : String) : List (String × ℚ) → Option ℚ
  | [] => none
  | (k', v') :: rest => if k' = k then some v' else pingLookup k rest

/-- Per-cycle mutable state of the signaling loop (`mod.rs` lines 124-133):
`remote_description_set`, `pending_candidates`, `did_offer`,
`peer_last_ping` (timestamps in seconds) and `should_reset_pc`. -/
structure LoopState where
  remoteDescriptionSet : Bool
  pendingCandidates : List String
  didOffer : Bool
  peerLastPing : List (String × ℚ)
  shouldResetPc : Bool
  deriving DecidableEq

/-- State at the top of a cycle: all flags clear, no pending candidates and
`peer_last_ping.clear()` (`mod.rs` lines 124-133). -/
def initState : LoopState :=
  ⟨false, [], false, [], false⟩

/-- The shared role-election + offer block of the `Join` and `Welcome`
handlers (`mod.rs` lines 169-182 and 207-220): if `!did_offer &&
local_client_id > remote_id`, set `did_offer` (before `create_offer` runs)
and send the offer when `create_offer` succeeds. -/
def offerStep (env : SigEnv) (localId remoteId : String) (s : LoopState) :
    LoopState × List Ev :=
  if !s.didOffer ∧ remoteId < localId then
    ({ s with didOffer := true },
      Ev.createOffer ::
        (match env.offerSdp with
         | some sdp => [Ev.sendOffer sdp]
         | none => []))
  else (s, [])

/-- Drain of `pending_candidates` after a successful
`set_remote_description` (`mod.rs` lines 229-234 and 243-247). -/
def drainPending (s : LoopState) : LoopState × List Ev :=
  ({ s with remoteDescriptionSet := true, pendingCandidates := [] },
    s.pendingCandidates.map Ev.addIce)

/-- One received signaling message through the `match sig_msg` block of the
signaling loop (`mod.rs` lines 155-283), relative to local identity
`localId`, room `roomId` and current time `now` (seconds). -/
def handleMsg (env : SigEnv) (roomId localId : String) (now : ℚ)
    (s : LoopState) : SigMsg → LoopState × List Ev
  | SigMsg.join remoteId =>
    let o := offerStep env localId remoteId s
    (o.1, Ev.emitPeerJoined remoteId :: Ev.sendWelcome roomId localId :: o.2)
  | SigMsg.welcome remoteId =>
    let o := offerStep env localId remoteId s
    (o.1, Ev.emitPeerJoined remoteId :: o.2)
  | SigMsg.leave remoteId =>
    if remoteId = localId then (s, [])
    else
      ({ s with peerLastPing := pingRemove remoteId s.peerLastPing,
                shouldResetPc := true },
        [Ev.emitPeerLeft remoteId])
  | SigMsg.ping remoteId =>
    ({ s with peerLastPing := pingInsert remoteId now s.peerLastPing }, [])
  | SigMsg.answer sdp =>
    if env.srdOk SdpKind.answerKind sdp then
      let d := drainPending s
      (d.1, Ev.setRemote SdpKind.answerKind sdp true :: d.2)
    else (s, [Ev.setRemote SdpKind.answerKind sdp false])
  | SigMsg.offer sdp =>
    if env.srdOk SdpKind.offerKind sdp then
      let d := drainPending s
      (d.1,
        Ev.setRemote SdpKind.offerKind sdp true ::
          d.2 ++
            Ev.createAnswer ::
              (match env.answerSdp with
               | some a => [Ev.sendAnswer a]
               | none => []))
    else (s, [Ev.setRemote SdpKind.offerKind sdp false])
  | SigMsg.iceCandidate c =>
    if s.remoteDescriptionSet then (s, [Ev.addIce c])
    else ({ s with pendingCandidates := s.pendingCandidates ++ [c] }, [])
  | SigMsg.voiceActivity id sp =>
    (s, [Ev.emitRemoteVoice id sp])

/-- Fold of `handleMsg` over a list of received messages, accumulating the
event trace in order. -/
def processMsgs (env : SigEnv) (roomId localId : String) (now : ℚ)
    (s : LoopState) : List SigMsg → LoopState × List Ev
  | [] => (s, [])
  | m :: ms =>
    let r := handleMsg env roomId localId now s m
    let rest := processMsgs env roomId localId now r.1 ms
    (rest.1, r.2 ++ rest.2)

/-- The 1 s peer-timeout tick (`mod.rs` lines 334-343): emit `peer-left` for
every peer whose last ping is more than 6 seconds old and request a PC
reset; the peer table itself is not modified here. -/
def timeoutTick (now : ℚ) (s : LoopState) : LoopState × List Ev :=
  let expired := s.peerLastPing.filter (fun p => decide (6 < now - p.2))
  ({ s with shouldResetPc := s.shouldResetPc || !expired.isEmpty },
    expired.map (fun p => Ev.emitPeerLeft p.1))

/-- `true` exactly for the `createOffer` event. -/
def isCreateOffer : Ev → Bool
  | Ev.createOffer => true
  | _ => false

/-- `true` exactly for `sendOffer` events. -/
def isSendOffer : Ev → Bool
  | Ev.sendOffer _ => true
  | _ => false

/-- `true` exactly for `sendWelcome` events. -/
def isSendWelcome : Ev → Bool
  | Ev.sendWelcome _ _ => true
  | _ => false

/-- Number of `createOffer` events in a trace. -/
def countOffers (evs : List Ev) : ℕ := evs.countP isCreateOffer

/-- Whether a successful `set_remote_description` has happened by the end of
the trace, starting from flag `b`. -/
def rdsAfter (b : Bool) : List Ev → Bool
  | [] => b
  | Ev.setRemote _ _ ok :: rest => rdsAfter (b || ok) rest
  | _ :: rest => rdsAfter b rest

/-- ICE-ordering safety of a trace: starting from "a successful
`set_remote_description` has already happened" flag `b`, every `addIce`
event is preceded (in the trace, or by `b`) by a successful `setRemote`. -/
def iceSafe (b : Bool) : List Ev → Bool
  | [] => true
  | Ev.addIce _ :: rest => b && iceSafe b rest
  | Ev.setRemote _ _ ok :: rest => iceSafe (b || ok) rest
  | _ :: rest => iceSafe b rest

/-! ### Audio-stream lifecycle across peer-connection cycles
(`mod.rs` lines 52-364, `session.rs` lines 80-125, `audio.rs` lines 222-355) -/

/-- Stream lifecycle events of one session, tagged with the cycle index.
There is no playback-destruction event: the playback thread spawned by
`start_audio_playback` never exits (`audio.rs` lines 346-348). -/
inductive StreamEvent
  | captureCreated (cycle : ℕ)
  | captureDestroyed (cycle : ℕ)
  | playbackCreated (cycle : ℕ)
  deriving DecidableEq

/-- Stream events of one signaling cycle (`mod.rs` lines 52-364): the cycle
spawns a capture thread for the new peer connection's track (lines 77-96);
if an inbound audio track arrives, the `on_track` handler of this cycle's
`P2DSession` calls `start_audio_playback`, creating a fresh output stream
(`session.rs` lines 80-96); at cycle end the per-cycle flag is cleared and
the capture stream is dropped (`mod.rs` lines 347-355). -/
def cycleStreamTrace (i : ℕ) (trackArrived : Bool) : List StreamEvent :=
  StreamEvent.captureCreated i ::
    (if trackArrived then [StreamEvent.playbackCreated i] else []) ++
      [StreamEvent.captureDestroyed i]

/-- Stream events of the cycles numbered `i, i+1, …`; the list records, per
cycle, whether an inbound audio track arrived. -/
def sessionStreamTraceFrom (i : ℕ) : List Bool → List StreamEvent
  | [] => []
  | t :: ts => cycleStreamTrace i t ++ sessionStreamTraceFrom (i + 1) ts

/-- Stream events of a whole session whose cycles are numbered `0, 1, …`. -/
def sessionStreamTrace (tracks : List Bool) : List StreamEvent :=
  sessionStreamTraceFrom 0 tracks

/-- `true` exactly for `playbackCreated` events. -/
def isPlaybackCreated : StreamEvent → Bool
  | StreamEvent.playbackCreated _ => true
  | _ => false

/-- `true` exactly for `captureCreated` events. -/
def isCaptureCreated : StreamEvent → Bool
  | StreamEvent.captureCreated _ => true
  | _ => false

/-- `true` exactly for `captureDestroyed` events. -/
def isCaptureDestroyed : StreamEvent → Bool
  | StreamEvent.captureDestroyed _ => true
  | _ => false

/-! ### Helper lemmas -/

lemma sumSq_nonneg (l : List ℚ) : 0 ≤ sumSq l := by
  apply List.sum_nonneg
  intro x hx
  obtain ⟨a, _, rfl⟩ := List.mem_map.mp hx
  exact mul_self_nonneg a

lemma calculate_rms_sq_nonneg (l : List ℚ) : 0 ≤ calculate_rms_sq l :=
  div_nonneg (sumSq_nonneg l) (by positivity)

lemma sumSq_replicate (n : ℕ) (c : ℚ) :
    sumSq (List.replicate n c) = n * (c * c) := by
  induction n with
  | zero => simp [sumSq]
  | succ k ih =>
    simp only [sumSq, List.replicate_succ, List.map_cons, List.sum_cons] at ih ⊢
    rw [ih]
    push_cast
    ring

lemma calculate_rms_sq_replicate (n : ℕ) (c : ℚ) (hn : n ≠ 0) :
    calculate_rms_sq (List.replicate n c) = c * c := by
  rw [calculate_rms_sq, sumSq_replicate, List.length_replicate]
  have hn' : (n : ℚ) ≠ 0 := by exact_mod_cast hn
  field_simp

lemma drainLoop_fp_lt_one (q : List ℚ) (fp : ℚ) : (drainLoop q fp).2 < 1 := by
  induction q, fp using drainLoop.induct with
  | case1 q fp h ih =>
    rw [drainLoop, dif_pos h]
    exact ih
  | case2 q fp h =>
    rw [drainLoop, dif_neg h]
    exact lt_of_not_le h

lemma drainLoop_fp_nonneg (q : List ℚ) (fp : ℚ) (hfp : 0 ≤ fp) :
    0 ≤ (drainLoop q fp).2 := by
  induction q, fp using drainLoop.induct with
  | case1 q fp h ih =>
    rw [drainLoop, dif_pos h]
    exact ih (by linarith)
  | case2 q fp h =>
    rw [drainLoop, dif_neg h]
    exact hfp

lemma fillLoop_deaf_state (ratio : ℚ) (n : ℕ) (q : List ℚ) (fp : ℚ) :
    (fillLoop true ratio n q fp).1 = (fillLoop false ratio n q fp).1 ∧
      (fillLoop true ratio n q fp).2.1 = (fillLoop false ratio n q fp).2.1 ∧
      (fillLoop true ratio n q fp).2.2 = List.replicate n 0 := by
  induction n generalizing q fp with
  | zero => simp [fillLoop]
  | succ k ih =>
    simp only [fillLoop, sampleStep, if_true, List.replicate_succ]
    obtain ⟨h1, h2, h3⟩ := ih (drainLoop q (fp + ratio)).1 (drainLoop q (fp + ratio)).2
    exact ⟨h1, h2, by rw [h3]⟩

/-! ### Claim theorems: audio path -/

/-- C3: for every 20 ms frame the VAD compares `rms = sqrt(mean(x²))`
against `0.005` (first conjunct, via monotonicity of `sqrt`); on an active
frame the hangover is reset to `10`, otherwise decremented while positive;
`is_talking` holds iff the hangover is positive; exactly one voice-activity
event is emitted per `is_talking` transition; a frame of RMS exactly
`0.005` with zero hangover yields not-speaking, and RMS `0.0051` yields
speaking. -/
theorem vad_frame_c3 (s : VadSt) (frame : List ℚ) :
    ((VAD_THRESHOLD : ℝ) < Real.sqrt ((calculate_rms_sq frame : ℚ) : ℝ) ↔
        frameActive frame = true) ∧
    (vadFrame s frame).1.hangover =
      (if frameActive frame then VAD_HANGOVER else s.hangover - 1) ∧
    ((vadFrame s frame).1.wasTalking = true ↔
        0 < (vadFrame s frame).1.hangover) ∧
    (vadFrame s frame).2.2 =
      (if (vadFrame s frame).1.wasTalking ≠ s.wasTalking
       then [(vadFrame s frame).1.wasTalking] else []) ∧
    (vadFrame ⟨0, false⟩ (List.replicate 1920 (5 / 1000))).1.wasTalking
        = false ∧
    (vadFrame ⟨0, false⟩ (List.replicate 1920 (51 / 10000))).1.wasTalking
        = true := by
  have hsq : frameActive (List.replicate 1920 ((5 : ℚ) / 1000)) = false := by
    rw [frameActive, decide_eq_false_iff_not]
    rw [calculate_rms_sq_replicate 1920 _ (by norm_num)]
    norm_num [VAD_THRESHOLD]
  have hsq2 : frameActive (List.replicate 1920 ((51 : ℚ) / 10000)) = true := by
    rw [frameActive, decide_eq_true_eq]
    rw [calculate_rms_sq_replicate 1920 _ (by norm_num)]
    norm_num [VAD_THRESHOLD]
  refine ⟨?_, ?_, ?_, ?_, ?_, ?_⟩
  · rw [frameActive, decide_eq_true_eq]
    rw [Real.lt_sqrt (by norm_num [VAD_THRESHOLD])]
    constructor
    · intro h; exact_mod_cast h
    · intro h; exact_mod_cast h
  · simp only [vadFrame]
    split_ifs <;> omega
  · simp only [vadFrame, decide_eq_true_eq]
  · simp only [vadFrame]
  · simp only [vadFrame]
    rw [hsq]
    simp
  · simp only [vadFrame]
    rw [hsq2]
    simp [VAD_HANGOVER]

/-- C4: with the session running and mute set, a capture-callback invocation
sends no packet to the outbound channel, clears the accumulation buffer,
emits exactly one `voice-activity = false` event when previously talking
(none otherwise), leaves the talking state false, and does not touch the
hangover counter. -/
theorem capture_mute_c4 (channels : ℕ) (data : List ℚ) (s : CapSt) :
    (captureCallback true true channels data s).2.1 = [] ∧
    (captureCallback true true channels data s).1.buffer = [] ∧
    (captureCallback true true channels data s).2.2 =
      (if s.wasTalking then [false] else []) ∧
    (captureCallback true true channels data s).1.wasTalking = false ∧
    (captureCallback true true channels data s).1.hangover = s.hangover := by
  simp [captureCallback]

/-- C5: jitter-buffer state machine.  In the buffering state with the entry
queue (old queue plus freshly received packets) below 3840 samples the
callback outputs silence, removes nothing and stays buffering; starting in
buffering, the flag flips to false exactly when the entry queue holds at
least 3840 samples; in the playing state an empty entry queue flips back to
buffering with a silent block; and buffering is re-entered only with an
empty entry queue. -/
theorem jitter_buffering_c5 (deaf : Bool) (ratio : ℚ) (n : ℕ)
    (inc : List ℚ) (s : JitterSt) :
    (s.buffering = true →
        (s.queue ++ inc).length < INITIAL_BUFFER_TARGET →
        (outputCallback deaf ratio n inc s).2 = List.replicate n 0 ∧
          (outputCallback deaf ratio n inc s).1.queue = s.queue ++ inc ∧
          (outputCallback deaf ratio n inc s).1.buffering = true ∧
          (outputCallback deaf ratio n inc s).1.fractionalPos
              = s.fractionalPos) ∧
    (s.buffering = true →
        ((outputCallback deaf ratio n inc s).1.buffering = false ↔
          INITIAL_BUFFER_TARGET ≤ (s.queue ++ inc).length)) ∧
    (s.buffering = false → s.queue ++ inc = [] →
        (outputCallback deaf ratio n inc s).1.buffering = true ∧
          (outputCallback deaf ratio n inc s).2 = List.replicate n 0 ∧
          (outputCallback deaf ratio n inc s).1.queue = []) ∧
    (s.buffering = false →
        (outputCallback deaf ratio n inc s).1.buffering = true →
        s.queue ++ inc = []) := by
  refine ⟨?_, ?_, ?_, ?_⟩
  · intro hb hlen
    simp only [outputCallback]
    rw [if_pos hb,
      if_neg (show ¬INITIAL_BUFFER_TARGET ≤ (s.queue ++ inc).length by omega)]
    exact ⟨rfl, rfl, rfl, rfl⟩
  · intro hb
    simp only [outputCallback]
    rw [if_pos hb]
    by_cases hlen : INITIAL_BUFFER_TARGET ≤ (s.queue ++ inc).length
    · rw [if_pos hlen]
      simpa using hlen
    · rw [if_neg hlen]
      simpa using hlen
  · intro hb he
    simp only [outputCallback]
    rw [if_neg (show ¬s.buffering = true by simp [hb]),
      if_pos (show (s.queue ++ inc).length = 0 by rw [he]; rfl)]
    exact ⟨rfl, rfl, he⟩
  · intro hb hb'
    by_cases he : (s.queue ++ inc).length = 0
    · exact List.length_eq_zero.mp he
    · exfalso
      simp only [outputCallback] at hb'
      rw [if_neg (show ¬s.buffering = true by simp [hb]), if_neg he] at hb'
      simp at hb'

/-- C5 witness: a buffering callback on an empty queue keeps buffering and
writes a silent block. -/
theorem jitter_buffering_c5_witness :
    (outputCallback false 0 2 [] ⟨[], 0, true⟩).2 = List.replicate 2 0 ∧
    (outputCallback false 0 2 [] ⟨[], 0, true⟩).1.buffering = true := by
  have h := jitter_buffering_c5 false 0 2 [] ⟨[], 0, true⟩
  exact ⟨(h.1 rfl (by decide)).1, (h.1 rfl (by decide)).2.2.1⟩

/-- C6: with deafen set, the output callback writes a block of zeros while
the queue, the fractional position and the buffering flag evolve exactly as
with deafen clear, so the drain rate is independent of the flag. -/
theorem deafen_c6 (ratio : ℚ) (n : ℕ) (inc : List ℚ) (s : JitterSt) :
    (outputCallback true ratio n inc s).1
        = (outputCallback false ratio n inc s).1 ∧
    (outputCallback true ratio n inc s).2 = List.replicate n 0 := by
  obtain ⟨h1, h2, h3⟩ :=
    fillLoop_deaf_state ratio n (s.queue ++ inc) s.fractionalPos
  by_cases hb : s.buffering = true
  · by_cases hlen : INITIAL_BUFFER_TARGET ≤ (s.queue ++ inc).length
    · simp only [outputCallback, if_pos hb, if_pos hlen]
      exact ⟨by rw [h1, h2], h3⟩
    · simp only [outputCallback, if_pos hb, if_neg hlen]
      exact ⟨trivial, trivial⟩
  · by_cases he : (s.queue ++ inc).length = 0
    · simp only [outputCallback, if_neg hb, if_pos he]
      exact ⟨trivial, trivial⟩
    · simp only [outputCallback, if_neg hb, if_neg he]
      exact ⟨by rw [h1, h2], h3⟩

/-- C10: the playback fill loop is total on every queue state — an empty
queue yields the sample `0.0`, a one-element queue repeats the current
value as its interpolation neighbour; a callback that passed the entry
underrun check keeps `buffering = false` for the whole block even if the
queue empties mid-block; and from a nonnegative `fractional_pos` and
nonnegative ratio, `fractional_pos` is nonnegative and strictly below `1`
at the end of every per-sample step. -/
theorem playback_total_c10 (deaf : Bool) (ratio fp a : ℚ) (q : List ℚ)
    (n : ℕ) (inc : List ℚ) (s : JitterSt)
    (hfp : 0 ≤ fp) (hr : 0 ≤ ratio) :
    (sampleStep deaf ratio [] fp).2.2 = 0 ∧
    (sampleStep false ratio [a] fp).2.2 = a ∧
    (s.buffering = false → s.queue ++ inc ≠ [] →
        (outputCallback deaf ratio n inc s).1.buffering = false) ∧
    0 ≤ (sampleStep deaf ratio q fp).2.1 ∧
    (sampleStep deaf ratio q fp).2.1 < 1 := by
  refine ⟨?_, ?_, ?_, ?_, ?_⟩
  · cases deaf <;> simp [sampleStep]
  · simp [sampleStep]
  · intro hb hne
    have he : ¬(s.queue ++ inc).length = 0 := by
      intro h
      exact hne (List.length_eq_zero.mp h)
    simp only [outputCallback]
    rw [if_neg (show ¬s.buffering = true by simp [hb]), if_neg he]
  · exact drainLoop_fp_nonneg _ _ (by linarith)
  · exact drainLoop_fp_lt_one _ _

/-- C10 witness at a concrete queue, position and ratio. -/
theorem playback_total_c10_witness :
    (sampleStep false (1 / 2) [] 0).2.2 = 0 ∧
    0 ≤ (sampleStep false (1 / 2) [(3 : ℚ)] 0).2.1 ∧
    (sampleStep false (1 / 2) [(3 : ℚ)] 0).2.1 < 1 := by
  have h := playback_total_c10 false (1 / 2) 0 3 [(3 : ℚ)] 1 []
    ⟨[], 0, true⟩ (by norm_num) (by norm_num)
  exact ⟨h.1, h.2.2.2.1, h.2.2.2.2⟩

/-! ### Helper lemmas: role election (C1) -/

/-- A message that the role-election block reacts to: a `Join` or a
`Welcome` carrying remote id `r`. -/
def fromJoinWelcome (r : String) (m : SigMsg) : Prop :=
  m = SigMsg.join r ∨ m = SigMsg.welcome r

lemma countOffers_offerStep (env : SigEnv) (localId remoteId : String)
    (s : LoopState) :
    countOffers (offerStep env localId remoteId s).2
        = (if s.didOffer = false ∧ remoteId < localId then 1 else 0) ∧
      (offerStep env localId remoteId s).1.didOffer
        = (s.didOffer || decide (remoteId < localId)) := by
  unfold offerStep
  by_cases hd : s.didOffer
  · simp [hd, countOffers]
  · by_cases hlt : remoteId < localId
    · cases henv : env.offerSdp <;>
        simp [hd, hlt, countOffers, isCreateOffer, henv, List.countP_cons]
    · simp [hd, hlt, countOffers]

lemma str_lt_ab : ("a" : String) < "b" := by
  rw [String.lt_iff_toList_lt]
  decide

lemma countOffers_cons_ne (e : Ev) (l : List Ev)
    (he : isCreateOffer e = false) :
    countOffers (e :: l) = countOffers l := by
  simp [countOffers, List.countP_cons, he]

lemma countOffers_handleMsg (env : SigEnv) (roomId localId : String)
    (now : ℚ) (s : LoopState) (b : String) (m : SigMsg)
    (hm : fromJoinWelcome b m) :
    countOffers (handleMsg env roomId localId now s m).2
        = (if s.didOffer = false ∧ b < localId then 1 else 0) ∧
      (handleMsg env roomId localId now s m).1.didOffer
        = (s.didOffer || decide (b < localId)) := by
  obtain ⟨h1, h2⟩ := countOffers_offerStep env localId b s
  rcases hm with rfl | rfl
  · refine ⟨?_, ?_⟩
    · simp only [handleMsg]
      rw [countOffers_cons_ne (Ev.emitPeerJoined b) _ rfl,
        countOffers_cons_ne (Ev.sendWelcome roomId localId) _ rfl]
      exact h1
    · simp only [handleMsg]
      exact h2
  · refine ⟨?_, ?_⟩
    · simp only [handleMsg]
      rw [countOffers_cons_ne (Ev.emitPeerJoined b) _ rfl]
      exact h1
    · simp only [handleMsg]
      exact h2

lemma countOffers_append (l1 l2 : List Ev) :
    countOffers (l1 ++ l2) = countOffers l1 + countOffers l2 :=
  List.countP_append _ _ _

lemma countOffers_processMsgs (env : SigEnv) (roomId localId : String)
    (now : ℚ) (b : String) (msgs : List SigMsg) (s : LoopState)
    (hmsgs : ∀ m ∈ msgs, fromJoinWelcome b m) :
    countOffers (processMsgs env roomId localId now s msgs).2
      = if s.didOffer = false ∧ b < localId ∧ msgs ≠ [] then 1 else 0 := by
  induction msgs generalizing s with
  | nil => simp [processMsgs, countOffers]
  | cons m ms ih =>
    have hm : fromJoinWelcome b m := hmsgs m (by simp)
    obtain ⟨h1, h2⟩ := countOffers_handleMsg env roomId localId now s b m hm
    simp only [processMsgs, countOffers_append, h1,
      ih _ (fun x hx => hmsgs x (by simp [hx]))]
    by_cases hd : s.didOffer <;> by_cases hlt : b < localId <;>
      by_cases hms : ms = [] <;> simp [hd, hlt, hms, h2]

/-! ### Helper lemmas: ICE candidate ordering (C2) -/

lemma rdsAfter_append (b : Bool) (l1 l2 : List Ev) :
    rdsAfter b (l1 ++ l2) = rdsAfter (rdsAfter b l1) l2 := by
  induction l1 generalizing b with
  | nil => rfl
  | cons e l ih => cases e <;> simp [rdsAfter, ih]

lemma iceSafe_append (b : Bool) (l1 l2 : List Ev) :
    iceSafe b (l1 ++ l2) = (iceSafe b l1 && iceSafe (rdsAfter b l1) l2) := by
  induction l1 generalizing b with
  | nil => rfl
  | cons e l ih =>
    cases e <;> simp [iceSafe, rdsAfter, ih, Bool.and_assoc]

lemma iceSafe_true_addIce (cands : List String) :
    iceSafe true (cands.map Ev.addIce) = true := by
  induction cands with
  | nil => rfl
  | cons c cs ih => simp [iceSafe, ih]

lemma rdsAfter_addIce (b : Bool) (cands : List String) :
    rdsAfter b (cands.map Ev.addIce) = b := by
  induction cands with
  | nil => rfl
  | cons c cs ih => simp [rdsAfter, ih]

lemma rdsAfter_no_setRemote (b : Bool) (l : List Ev)
    (h : ∀ k sdp ok, Ev.setRemote k sdp ok ∉ l) : rdsAfter b l = b := by
  induction l generalizing b with
  | nil => rfl
  | cons e l ih =>
    have hl : ∀ k sdp ok, Ev.setRemote k sdp ok ∉ l := by
      intro k sdp ok hk
      exact h k sdp ok (by simp [hk])
    cases e with
    | setRemote k sdp ok => exact absurd (by simp) (h k sdp ok)
    | _ => simpa [rdsAfter] using ih _ hl

lemma offerStep_no_setRemote (env : SigEnv) (localId remoteId : String)
    (s : LoopState) (k : SdpKind) (sdp : String) (ok : Bool) :
    Ev.setRemote k sdp ok ∉ (offerStep env localId remoteId s).2 := by
  unfold offerStep
  split_ifs
  · cases henv : env.offerSdp <;> simp [henv]
  · simp

lemma offerStep_no_addIce (env : SigEnv) (localId remoteId : String)
    (s : LoopState) (c : String) :
    Ev.addIce c ∉ (offerStep env localId remoteId s).2 := by
  unfold offerStep
  split_ifs
  · cases henv : env.offerSdp <;> simp [henv]
  · simp

lemma iceSafe_no_ice_set (b : Bool) (l : List Ev)
    (hi : ∀ c, Ev.addIce c ∉ l) : iceSafe b l = true := by
  induction l generalizing b with
  | nil => rfl
  | cons e l ih =>
    have hl : ∀ c, Ev.addIce c ∉ l := by
      intro c hc
      exact hi c (by simp [hc])
    cases e with
    | addIce c => exact absurd (by simp) (hi c)
    | _ => simpa [iceSafe] using ih _ hl

lemma handleMsg_iceSafe (env : SigEnv) (roomId localId : String) (now : ℚ)
    (s : LoopState) (m : SigMsg) :
    iceSafe s.remoteDescriptionSet
        (handleMsg env roomId localId now s m).2 = true ∧
      rdsAfter s.remoteDescriptionSet (handleMsg env roomId localId now s m).2
        = (handleMsg env roomId localId now s m).1.remoteDescriptionSet := by
  cases m with
  | join r =>
    simp only [handleMsg]
    constructor
    · refine iceSafe_no_ice_set _ _ ?_
      intro c hc
      simp only [List.mem_cons] at hc
      rcases hc with h | h | h
      · cases h
      · cases h
      · exact offerStep_no_addIce env localId r s c h
    · have : (offerStep env localId r s).1.remoteDescriptionSet
          = s.remoteDescriptionSet := by
        unfold offerStep
        split_ifs <;> rfl
      rw [show rdsAfter s.remoteDescriptionSet
          (Ev.emitPeerJoined r :: Ev.sendWelcome roomId localId ::
            (offerStep env localId r s).2)
          = rdsAfter s.remoteDescriptionSet (offerStep env localId r s).2
          from rfl]
      rw [rdsAfter_no_setRemote _ _
        (fun k sdp ok => offerStep_no_setRemote env localId r s k sdp ok)]
      exact this.symm
  | welcome r =>
    simp only [handleMsg]
    constructor
    · refine iceSafe_no_ice_set _ _ ?_
      intro c hc
      simp only [List.mem_cons] at hc
      rcases hc with h | h
      · cases h
      · exact offerStep_no_addIce env localId r s c h
    · have : (offerStep env localId r s).1.remoteDescriptionSet
          = s.remoteDescriptionSet := by
        unfold offerStep
        split_ifs <;> rfl
      rw [show rdsAfter s.remoteDescriptionSet
          (Ev.emitPeerJoined r :: (offerStep env localId r s).2)
          = rdsAfter s.remoteDescriptionSet (offerStep env localId r s).2
          from rfl]
      rw [rdsAfter_no_setRemote _ _
        (fun k sdp ok => offerStep_no_setRemote env localId r s k sdp ok)]
      exact this.symm
  | leave r =>
    simp only [handleMsg]
    split_ifs <;> simp [iceSafe, rdsAfter]
  | ping r => simp [handleMsg, iceSafe, rdsAfter]
  | answer sdp =>
    simp only [handleMsg]
    split_ifs with hok
    · simp only [drainPending, iceSafe, rdsAfter, Bool.or_true]
      exact ⟨iceSafe_true_addIce _, rdsAfter_addIce _ _⟩
    · simp [iceSafe, rdsAfter]
  | offer sdp =>
    simp only [handleMsg]
    split_ifs with hok
    · simp only [drainPending, iceSafe, rdsAfter, Bool.or_true,
        List.append_eq]
      constructor
      · rw [iceSafe_append]
        rw [iceSafe_true_addIce]
        cases henv : env.answerSdp <;> simp [iceSafe, henv]
      · rw [rdsAfter_append, rdsAfter_addIce]
        cases henv : env.answerSdp <;> simp [rdsAfter, henv]
    · simp [iceSafe, rdsAfter]
  | iceCandidate c =>
    simp only [handleMsg]
    split_ifs with hset
    · simp [iceSafe, rdsAfter, hset]
    · simp [iceSafe, rdsAfter]
  | voiceActivity id sp => simp [handleMsg, iceSafe, rdsAfter]

lemma processMsgs_iceSafe (env : SigEnv) (roomId localId : String)
    (now : ℚ) (msgs : List SigMsg) (s : LoopState) :
    iceSafe s.remoteDescriptionSet
        (processMsgs env roomId localId now s msgs).2 = true := by
  induction msgs generalizing s with
  | nil => rfl
  | cons m ms ih =>
    obtain ⟨h1, h2⟩ := handleMsg_iceSafe env roomId localId now s m
    simp only [processMsgs, iceSafe_append, h1, h2, Bool.true_and]
    exact ih _

/-! ### Claim theorems: signaling controller -/

/-- C1: role election is deterministic and exclusive.  On a `Join` or
`Welcome` from remote id `r ≠ localId`, the handler emits `create_offer`
exactly once iff `localId` is lexicographically greater and no offer was
made this cycle, and (when `create_offer` succeeds) sends the offer under
the same condition; and for two distinct peers `a`, `b`, each driven from
the cycle-initial state by an arbitrary nonempty sequence of `Join`/`Welcome`
messages from the other, exactly one of the two creates the initial offer —
the one with the greater id — regardless of message order. -/
theorem role_election_c1 (env : SigEnv) (roomId localId r : String)
    (now : ℚ) (s : LoopState) (m : SigMsg) (a b : String)
    (msgsA msgsB : List SigMsg)
    (hr : r ≠ localId) (hm : fromJoinWelcome r m)
    (hab : a ≠ b)
    (hA : ∀ x ∈ msgsA, fromJoinWelcome b x) (hAne : msgsA ≠ [])
    (hB : ∀ x ∈ msgsB, fromJoinWelcome a x) (hBne : msgsB ≠ []) :
    (countOffers (handleMsg env roomId localId now s m).2
        = if s.didOffer = false ∧ r < localId then 1 else 0) ∧
    (∀ sdp, env.offerSdp = some sdp →
        (Ev.sendOffer sdp ∈ (handleMsg env roomId localId now s m).2 ↔
          (s.didOffer = false ∧ r < localId))) ∧
    (countOffers (processMsgs env roomId a now initState msgsA).2
          + countOffers (processMsgs env roomId b now initState msgsB).2
        = 1) ∧
    (countOffers (processMsgs env roomId a now initState msgsA).2
        = if b < a then 1 else 0) := by
  refine ⟨(countOffers_handleMsg env roomId localId now s r m hm).1,
    ?_, ?_, ?_⟩
  · intro sdp hsdp
    have hsend : ∀ s', (Ev.sendOffer sdp ∈ (offerStep env localId r s').2 ↔
        (s'.didOffer = false ∧ r < localId)) := by
      intro s'
      unfold offerStep
      by_cases hd : s'.didOffer
      · simp [hd]
      · by_cases hlt : r < localId
        · simp [hd, hlt, hsdp]
        · simp [hd, hlt]
    rcases hm with rfl | rfl
    · simp only [handleMsg, List.mem_cons]
      rw [iff_iff_implies_and_implies]
      constructor
      · rintro (h | h | h)
        · cases h
        · cases h
        · exact (hsend s).mp h
      · intro h
        exact Or.inr (Or.inr ((hsend s).mpr h))
    · simp only [handleMsg, List.mem_cons]
      rw [iff_iff_implies_and_implies]
      constructor
      · rintro (h | h)
        · cases h
        · exact (hsend s).mp h
      · intro h
        exact Or.inr ((hsend s).mpr h)
  · rw [countOffers_processMsgs env roomId a now b msgsA initState hA,
      countOffers_processMsgs env roomId b now a msgsB initState hB]
    rcases lt_or_gt_of_ne hab with hlt | hlt
    · rw [if_neg (by simp [initState, hAne, asymm hlt]),
        if_pos (by simp [initState, hBne, hlt])]
    · rw [if_pos (by simp [initState, hAne, hlt]),
        if_neg (by simp [initState, hBne, asymm hlt])]
  · rw [countOffers_processMsgs env roomId a now b msgsA initState hA]
    by_cases hlt : b < a
    · rw [if_pos (by simp [initState, hAne, hlt]), if_pos hlt]
    · rw [if_neg (by simp [initState, hlt]), if_neg hlt]

/-- C2: an ICE candidate is never applied before the matching remote
description.  Over any message sequence starting from the cycle-initial
state, every `add_ice_candidate` invocation in the event trace is preceded
by a successful `set_remote_description` (`iceSafe false`); a candidate
arriving while `remote_description_set` is false is appended to the pending
list with no session call; and a successful `set_remote_description` of
kind Answer or Offer drains all pending candidates, in order, immediately
after it. -/
theorem ice_ordering_c2 (env : SigEnv) (roomId localId : String) (now : ℚ)
    (msgs : List SigMsg) (s : LoopState) (c sdp : String) :
    iceSafe false (processMsgs env roomId localId now initState msgs).2
        = true ∧
    (s.remoteDescriptionSet = false →
        handleMsg env roomId localId now s (SigMsg.iceCandidate c)
          = ({ s with pendingCandidates := s.pendingCandidates ++ [c] },
              [])) ∧
    (env.srdOk SdpKind.answerKind sdp = true →
        (handleMsg env roomId localId now s (SigMsg.answer sdp)).2
            = Ev.setRemote SdpKind.answerKind sdp true ::
                s.pendingCandidates.map Ev.addIce ∧
          (handleMsg env roomId localId now s
              (SigMsg.answer sdp)).1.pendingCandidates = [] ∧
          (handleMsg env roomId localId now s
              (SigMsg.answer sdp)).1.remoteDescriptionSet = true) ∧
    (env.srdOk SdpKind.offerKind sdp = true →
        (handleMsg env roomId localId now s (SigMsg.offer sdp)).2
            = Ev.setRemote SdpKind.offerKind sdp true ::
                s.pendingCandidates.map Ev.addIce ++
                  Ev.createAnswer ::
                    (match env.answerSdp with
                     | some a => [Ev.sendAnswer a]
                     | none => []) ∧
          (handleMsg env roomId localId now s
              (SigMsg.offer sdp)).1.pendingCandidates = [] ∧
          (handleMsg env roomId localId now s
              (SigMsg.offer sdp)).1.remoteDescriptionSet = true) := by
  refine ⟨?_, ?_, ?_, ?_⟩
  · have h := processMsgs_iceSafe env roomId localId now msgs initState
    simpa [initState] using h
  · intro hset
    simp [handleMsg, hset]
  · intro hok
    simp [handleMsg, hok, drainPending]
  · intro hok
    simp [handleMsg, hok, drainPending]

/-- C2 witness: a candidate arriving first is buffered; a following
successful Offer drains it right after `set_remote_description`, and the
whole trace is ICE-safe. -/
theorem ice_ordering_c2_witness :
    iceSafe false (processMsgs allOkEnv "room" "a" 0 initState
        [SigMsg.iceCandidate "cand1", SigMsg.offer "sdp1"]).2 = true ∧
    handleMsg allOkEnv "room" "a" 0 initState (SigMsg.iceCandidate "cand1")
      = ({ initState with pendingCandidates := ["cand1"] }, []) := by
  have h := ice_ordering_c2 allOkEnv "room" "a" 0
    [SigMsg.iceCandidate "cand1", SigMsg.offer "sdp1"] initState
    "cand1" "sdp1"
  refine ⟨h.1, ?_⟩
  have h2 := h.2.1 rfl
  simpa [initState] using h2

/-- C1 witness: local id "b" against remote "a" offers exactly once on a
Join; ids "b" and "a" driven by one Welcome each produce exactly one offer
between them. -/
theorem role_election_c1_witness :
    countOffers (handleMsg allOkEnv "room" "b" 0 initState
        (SigMsg.join "a")).2 = 1 ∧
    countOffers (processMsgs allOkEnv "room" "b" 0 initState
          [SigMsg.welcome "a"]).2
        + countOffers (processMsgs allOkEnv "room" "a" 0 initState
          [SigMsg.welcome "b"]).2 = 1 := by
  have h := role_election_c1 allOkEnv "room" "b" "a" 0 initState
    (SigMsg.join "a") "b" "a" [SigMsg.welcome "a"] [SigMsg.welcome "b"]
    (by decide) (Or.inl rfl) (by decide)
    (by intro x hx; simp at hx; rw [hx]; exact Or.inr rfl) (by simp)
    (by intro x hx; simp at hx; rw [hx]; exact Or.inr rfl) (by simp)
  refine ⟨?_, h.2.2.1⟩
  rw [h.1, if_pos ⟨rfl, str_lt_ab⟩]

/-! ### Helper lemmas: peer table (C7), Welcome reply (C8), streams (C9) -/

lemma pingLookup_pingInsert (k : String) (v : ℚ) (l : List (String × ℚ)) :
    pingLookup k (pingInsert k v l) = some v := by
  induction l with
  | nil => simp [pingInsert, pingLookup]
  | cons p rest ih =>
    by_cases h : p.1 = k
    · simp [pingInsert, pingLookup, h]
    · simp [pingInsert, pingLookup, h, ih]

lemma pingLookup_pingRemove (k : String) (l : List (String × ℚ)) :
    pingLookup k (pingRemove k l) = none := by
  induction l with
  | nil => rfl
  | cons p rest ih =>
    by_cases h : p.1 = k
    · simp [pingRemove, h, ih]
    · simp [pingRemove, pingLookup, h, ih]

lemma offerStep_peerLastPing (env : SigEnv) (localId remoteId : String)
    (s : LoopState) :
    (offerStep env localId remoteId s).1.peerLastPing = s.peerLastPing := by
  unfold offerStep
  split_ifs <;> rfl

lemma countWelcome_offerStep (env : SigEnv) (localId remoteId : String)
    (s : LoopState) :
    List.countP isSendWelcome (offerStep env localId remoteId s).2 = 0 := by
  unfold offerStep
  split_ifs
  · cases henv : env.offerSdp <;>
      simp [henv, isSendWelcome, List.countP_cons]
  · simp

lemma cycleStreamTrace_counts (i : ℕ) (t : Bool) :
    (cycleStreamTrace i t).countP isPlaybackCreated
        = (if t then 1 else 0) ∧
      (cycleStreamTrace i t).countP isCaptureCreated = 1 ∧
      (cycleStreamTrace i t).countP isCaptureDestroyed = 1 := by
  cases t <;>
    simp [cycleStreamTrace, List.countP_cons, isPlaybackCreated,
      isCaptureCreated, isCaptureDestroyed]

lemma sessionStreamTraceFrom_counts (ts : List Bool) (i : ℕ) :
    (sessionStreamTraceFrom i ts).countP isPlaybackCreated
        = ts.count true ∧
      (sessionStreamTraceFrom i ts).countP isCaptureCreated = ts.length ∧
      (sessionStreamTraceFrom i ts).countP isCaptureDestroyed
        = ts.length := by
  induction ts generalizing i with
  | nil => simp [sessionStreamTraceFrom]
  | cons t rest ih =>
    obtain ⟨c1, c2, c3⟩ := cycleStreamTrace_counts i t
    obtain ⟨i1, i2, i3⟩ := ih (i + 1)
    simp only [sessionStreamTraceFrom, List.countP_append, c1, c2, c3,
      i1, i2, i3, List.count_cons, List.length_cons]
    refine ⟨?_, by omega, by omega⟩
    cases t <;> simp [Nat.add_comm]

/-- C7 counterexample: receiving a `Join` from remote id "b" in the
cycle-initial state creates no peer record — the peer table stays empty
and holds no entry for "b", contrary to the claim that a record is created
on the first Join/Welcome. -/
theorem peer_record_c7_cex :
    (handleMsg allOkEnv "room" "a" 0 initState
        (SigMsg.join "b")).1.peerLastPing = [] ∧
    pingLookup "b" (handleMsg allOkEnv "room" "a" 0 initState
        (SigMsg.join "b")).1.peerLastPing = none := by
  have h : (handleMsg allOkEnv "room" "a" 0 initState
      (SigMsg.join "b")).1.peerLastPing = [] := by
    simp only [handleMsg]
    rw [offerStep_peerLastPing]
    rfl
  exact ⟨h, by rw [h]; rfl⟩

/-- C7 (amended): a peer record is created/updated only by `Ping`
(`last_ping_at := now`); `Join` and `Welcome` leave the peer table
untouched; the record is removed on `Leave` from that id; the 1 s timeout
scan leaves the table unchanged but emits `peer-left` for every peer whose
last ping is over 6 s old and requests a PC reset, the table being cleared
only at the start of the next cycle. -/
theorem peer_record_c7_amended (env : SigEnv) (roomId localId r : String)
    (now : ℚ) (s : LoopState) (hr : r ≠ localId) :
    (handleMsg env roomId localId now s (SigMsg.ping r)).1.peerLastPing
        = pingInsert r now s.peerLastPing ∧
    pingLookup r (pingInsert r now s.peerLastPing) = some now ∧
    (handleMsg env roomId localId now s (SigMsg.join r)).1.peerLastPing
        = s.peerLastPing ∧
    (handleMsg env roomId localId now s (SigMsg.welcome r)).1.peerLastPing
        = s.peerLastPing ∧
    (handleMsg env roomId localId now s (SigMsg.leave r)).1.peerLastPing
        = pingRemove r s.peerLastPing ∧
    pingLookup r (pingRemove r s.peerLastPing) = none ∧
    (timeoutTick now s).1.peerLastPing = s.peerLastPing ∧
    (∀ p ∈ s.peerLastPing, 6 < now - p.2 →
        Ev.emitPeerLeft p.1 ∈ (timeoutTick now s).2 ∧
          (timeoutTick now s).1.shouldResetPc = true) ∧
    initState.peerLastPing = [] := by
  refine ⟨by simp [handleMsg], pingLookup_pingInsert r now s.peerLastPing,
    ?_, ?_, by simp [handleMsg, hr],
    pingLookup_pingRemove r s.peerLastPing, rfl, ?_, rfl⟩
  · simp only [handleMsg]
    exact offerStep_peerLastPing env localId r s
  · simp only [handleMsg]
    exact offerStep_peerLastPing env localId r s
  · intro p hp hexp
    have hmem : p ∈ s.peerLastPing.filter (fun q => decide (6 < now - q.2)) :=
      List.mem_filter.mpr ⟨hp, by simpa using hexp⟩
    constructor
    · exact List.mem_map.mpr ⟨p, hmem, rfl⟩
    · have hne : ¬(s.peerLastPing.filter
          (fun q => decide (6 < now - q.2))).isEmpty := by
        rw [List.isEmpty_iff]
        exact List.ne_nil_of_mem hmem
      simp [timeoutTick, hne]

/-- C7 witness: a `Ping` from "b" at time 7 creates the record with
`last_ping_at = 7`. -/
theorem peer_record_c7_witness :
    (handleMsg allOkEnv "room" "a" 7 initState
        (SigMsg.ping "b")).1.peerLastPing = pingInsert "b" 7 [] ∧
    pingLookup "b" (pingInsert "b" 7 []) = some 7 := by
  have h := peer_record_c7_amended allOkEnv "room" "a" "b" 7 initState
    (by decide)
  exact ⟨h.1, h.2.1⟩

/-- C8 counterexample: receiving a `Welcome` from "b" in the cycle-initial
state sends no `Welcome` reply — only `Join` triggers the reply, contrary
to the claim that both kinds do. -/
theorem welcome_reply_c8_cex :
    ((handleMsg allOkEnv "room" "a" 0 initState
        (SigMsg.welcome "b")).2.countP isSendWelcome) = 0 := by
  simp only [handleMsg]
  rw [List.countP_cons_of_neg _ _ (by simp [isSendWelcome])]
  exact countWelcome_offerStep allOkEnv "a" "b" initState

/-- C8 (amended): the controller replies `Welcome{room_id, local_client_id}`
to every received `Join` (even a self-echoed one — the handler does not
check the sender), but a received `Welcome` is never answered with a
`Welcome`; it only emits `peer-joined` and runs role election. -/
theorem welcome_reply_c8_amended (env : SigEnv) (roomId localId r : String)
    (now : ℚ) (s : LoopState) :
    Ev.sendWelcome roomId localId ∈
        (handleMsg env roomId localId now s (SigMsg.join r)).2 ∧
    ((handleMsg env roomId localId now s
        (SigMsg.welcome r)).2.countP isSendWelcome) = 0 := by
  constructor
  · simp [handleMsg]
  · simp only [handleMsg]
    rw [List.countP_cons_of_neg _ _ (by simp [isSendWelcome])]
    exact countWelcome_offerStep env localId r s

/-- C9 counterexample: a session whose first two cycles each receive an
inbound audio track creates two playback output streams, not exactly one
for the whole session. -/
theorem stream_lifecycle_c9_cex :
    (sessionStreamTrace [true, true]).countP isPlaybackCreated = 2 ∧
    (sessionStreamTrace [true, true]).countP isPlaybackCreated ≠ 1 := by
  constructor <;> decide

/-- C9 (amended): per signaling cycle the capture stream is created once and
destroyed once (torn down with the cycle and rebuilt for the next peer
connection), while a fresh playback output stream is created for every
cycle whose peer connection receives an inbound audio track — so playback
streams number the cycles with inbound tracks rather than one per session
(and none is ever destroyed: the playback thread never exits). -/
theorem stream_lifecycle_c9_amended (ts : List Bool) :
    (sessionStreamTrace ts).countP isPlaybackCreated = ts.count true ∧
    (sessionStreamTrace ts).countP isCaptureCreated = ts.length ∧
    (sessionStreamTrace ts).countP isCaptureDestroyed = ts.length :=
  sessionStreamTraceFrom_counts ts 0

end P2d
